import Mathlib

/-!
Shallow embedding of the chunk core of `eoss-fuse` (file `src/chunk.rs`),
together with the two identifier-length constants from `src/fs.rs` and
`src/id.rs`.

Modelling conventions:
* Machine bytes are `Nat` values; byte buffers are `List Nat`.
* The 1024 blocks of 4096 bytes each are flattened into a single byte store
  `data : Nat → Nat` indexed by the absolute offset
  `block_idx * BLOCK_SIZE + offset`, exactly the positions touched by
  `guard[offset..offset + write_in].copy_from_slice(..)` in the source.
* The writer's guard array `guards: [Option<RwLockWriteGuard>; 1024]` is
  modelled by `guards : Nat → Bool` (`true` at `i` iff the guard for block
  `i` is still held).  A block is write-locked exactly when the writer
  still holds its guard, so the reader-side lock probe
  `try_read_recursive` succeeds at block `i` iff `guards i = false`.
* The wakeup registry `subscriber: Mutex<Vec<Waker>>` is a `List Nat` of
  opaque waker identities; `woken` records every `wake_by_ref` call made
  so far, in order.
* `io::Result` values that are never `Err` in the source are modelled as
  plain values; `Poll::Pending` is `Option.none` and `Poll::Ready(n)` is
  `Option.some n` where the source returns a poll.
* The `unwrap()` of `self.guards[block_idx]` in `ChunkWriter::write` is
  modelled as a plain read of the flattened store: guard presence at the
  cursor's block along every reachable writer state is the proved
  suffix invariant, so the unwrap never panics.
-/

namespace EossFuse

/-- Default block size of 4 KiB (`BLOCK_SIZE` in `src/chunk.rs`). -/
def BLOCK_SIZE : Nat := 4096

/-- Number of blocks per chunk (`BLOCK_PER_CHUNK` in `src/chunk.rs`). -/
def BLOCK_PER_CHUNK : Nat := 1024

/-- Chunk capacity in bytes (`CHUNK_SIZE = BLOCK_SIZE * BLOCK_PER_CHUNK`). -/
def CHUNK_SIZE : Nat := BLOCK_SIZE * BLOCK_PER_CHUNK

/-- Identifier length used by `src/chunk.rs` via `use crate::fs::ID_LENGTH`
(`pub const ID_LENGTH: usize = 64;` in `src/fs.rs`). -/
def fs.ID_LENGTH : Nat := 64

/-- Identifier length of the `Id` type (`pub const ID_LENGTH: usize = 32;`
in `src/id.rs`, the size of a blake3 keyed-hash digest). -/
def id.ID_LENGTH : Nat := 32

/-- Combined state of a `Chunk` and its unique `ChunkWriter`:
`ptr` is the writer cursor, `data` the flattened 4 MiB byte store,
`guards` the writer's optional write-guard array, `subs` the wakeup
registry (`subscriber`), and `woken` the list of wakers invoked so far. -/
structure CState where
  ptr : Nat
  data : Nat → Nat
  guards : Nat → Bool
  subs : List Nat
  woken : List Nat

/-- Model of `ChunkWriter::write(&mut self, buf, acc)` from `src/chunk.rs`
(lines 121-151): returns the `usize` result together with the state after
the call.  The recursion mirrors `self.write(&buf[write_in..], acc + write_in)`. -/
def writeAux (s : CState) (buf : List Nat) (acc : Nat) : Nat × CState :=
  if s.ptr = CHUNK_SIZE then (0, s)
  else
    let block_idx := s.ptr / BLOCK_SIZE
    let offset := s.ptr % BLOCK_SIZE
    let remaining := BLOCK_SIZE - offset
    let write_in := min remaining buf.length
    let data2 : Nat → Nat := fun i =>
      if s.ptr ≤ i ∧ i < s.ptr + write_in then buf.getD (i - s.ptr) 0 else s.data i
    let ptr2 := s.ptr + write_in
    let guards2 : Nat → Bool :=
      if ptr2 / BLOCK_SIZE ≠ block_idx then
        fun i => if i = block_idx then false else s.guards i
      else s.guards
    if buf.length = write_in then
      (acc + write_in,
        { ptr := ptr2, data := data2, guards := guards2,
          subs := [], woken := s.woken ++ s.subs })
    else
      writeAux
        { ptr := ptr2, data := data2, guards := guards2,
          subs := s.subs, woken := s.woken }
        (buf.drop write_in) (acc + write_in)
termination_by buf.length
decreasing_by
  simp only [List.length_drop]
  have hofs : s.ptr % BLOCK_SIZE < BLOCK_SIZE := Nat.mod_lt _ (by decide)
  omega

/-- Model of `Write::write` / `poll_write` entry: `self.write(buf, 0)`,
keeping only the state. -/
def writeCall (s : CState) (buf : List Nat) : CState := (writeAux s buf 0).2

/-- Iterated write calls, one per element of `bufs`. -/
def writeAll (s : CState) : List (List Nat) → CState
  | [] => s
  | b :: bs => writeAll (writeCall s b) bs

/-- Model of a zero-initialized chunk (`Chunk::new`, `Block::default`)
directly after `Chunk::writer()` ran `ChunkWriter::new`: every byte is 0,
all 1024 write guards are held, the cursor is 0 and the registry empty. -/
def newZeroedWriter : CState :=
  { ptr := 0
    data := fun _ => 0
    guards := fun i => decide (i < BLOCK_PER_CHUNK)
    subs := []
    woken := [] }

/-- Model of `AsyncWrite::poll_shutdown for ChunkWriter` (lines 257-265):
drop every remaining guard and force the cursor to `CHUNK_SIZE`.  The
subscriber registry is left untouched by the source. -/
def pollShutdown (s : CState) : CState :=
  { s with guards := fun _ => false, ptr := CHUNK_SIZE }

/-- Model of `ChunkReader::try_read(&mut self, buf, acc)` (lines 183-210).
`locked i = true` means block `i` is still write-locked, so the probe
`try_read_recursive` fails.  The result is the list of bytes copied into
`buf` together with the reader cursor after the call; the source's `usize`
result is the length of that list plus `acc`. -/
def tryRead (locked : Nat → Bool) (data : Nat → Nat) (rp bufLen : Nat) :
    List Nat × Nat :=
  if rp = CHUNK_SIZE then ([], rp)
  else
    let block_idx := rp / BLOCK_SIZE
    let offset := rp % BLOCK_SIZE
    if locked block_idx then ([], rp)
    else
      let remaining := BLOCK_SIZE - offset
      let read_in := min remaining bufLen
      let bytes := (List.range read_in).map (fun k => data (rp + k))
      if bufLen = read_in then (bytes, rp + read_in)
      else
        let rest := tryRead locked data (rp + read_in) (bufLen - read_in)
        (bytes ++ rest.1, rest.2)
termination_by bufLen
decreasing_by
  have hofs : rp % BLOCK_SIZE < BLOCK_SIZE := Nat.mod_lt _ (by decide)
  omega

/-- Model of the blocking `ChunkReader::read(&mut self, buf, acc)`
(lines 163-180).  The blocking `read_recursive()` wait is modelled with
two lock states: `l1` at the first `try_read` and `l2` once the blocking
acquisition would be granted; if block `rp / BLOCK_SIZE` is still locked
in `l2` the call never returns, modelled as `none`. -/
def readBlocking (l1 l2 : Nat → Bool) (data : Nat → Nat) (rp bufLen : Nat) :
    Option (List Nat × Nat) :=
  let r := tryRead l1 data rp bufLen
  if r.1.length = 0 ∧ rp ≠ CHUNK_SIZE then
    if l2 (rp / BLOCK_SIZE) then none
    else some (tryRead l2 data rp bufLen)
  else some r

/-- Model of `AsyncRead::poll_read for ChunkReader` (lines 268-285).
`waker` is the task's waker; the result is `none` for `Poll::Pending`
(after `subscribe`) or `some n` for `Poll::Ready(Ok(()))` with `n` bytes
filled, along with the updated chunk state and reader cursor. -/
def pollRead (s : CState) (rp bufLen waker : Nat) : Option Nat × CState × Nat :=
  let r := tryRead s.guards s.data rp bufLen
  if r.1.length = 0 then
    (none, { s with subs := s.subs ++ [waker] }, rp)
  else (some r.1.length, s, r.2)

/-- Iterated reads: perform one `try_read` per requested size in `sizes`
(all blocks already released, i.e. lock state `locked`), concatenating the
bytes observed.  This is a reader "reading to EOF" with an arbitrary
schedule of destination-buffer sizes. -/
def readAll (locked : Nat → Bool) (data : Nat → Nat) : Nat → List Nat → List Nat
  | _, [] => []
  | rp, sz :: rest =>
    let r := tryRead locked data rp sz
    r.1 ++ readAll locked data r.2 rest

/-- Signed 64-bit wrap-around: the value of an `i64` whose bit pattern is
`x mod 2^64`, as used by the cast `offset as i64` (and by two's-complement
addition) in `Seek::seek for ChunkReader`. -/
def wrap64 (x : Int) : Int := (x + 2 ^ 63) % 2 ^ 64 - 2 ^ 63

/-- Model of `std::io::SeekFrom`: `start` carries a `u64`, the other two an
`i64`. -/
inductive SeekFromM where
  | start (off : Nat)
  | fromEnd (off : Int)
  | current (off : Int)

/-- Resolved target position of a seek, before any `i64` wrap-around, as
the spec describes it. -/
def seekTarget (rp : Nat) : SeekFromM → Int
  | .start off => off
  | .fromEnd off => (CHUNK_SIZE : Int) + off
  | .current off => (rp : Int) + off

/-- Model of `Seek::seek for ChunkReader` (lines 229-246).  The `i64`
target is computed with 64-bit wrap-around (the `offset as i64` cast; the
additions are wrapping two's-complement).  Returns the `io::Result<u64>`
(`none` for `Err(InvalidInput)`) paired with the reader cursor after the
call; on error the source leaves `self.ptr` untouched. -/
def seekReader (rp : Nat) (pos : SeekFromM) : Option Nat × Nat :=
  let target : Int :=
    match pos with
    | .start off => wrap64 off
    | .fromEnd off => wrap64 ((CHUNK_SIZE : Int) + off)
    | .current off => wrap64 ((rp : Int) + off)
  if target < 0 then (none, rp)
  else if CHUNK_SIZE ≤ target.toNat then (some (CHUNK_SIZE - 1), CHUNK_SIZE - 1)
  else (some target.toNat, target.toNat)

/-- Model of `parking_lot::RwLock` as far as the ownership round-trip is
concerned: `new` wraps a value, `into_inner` unwraps it. -/
structure RwLockM (α : Type) where
  value : α

/-- Model of `RwLock::new`. -/
def RwLockM.new {α : Type} (a : α) : RwLockM α := ⟨a⟩

/-- Model of `RwLock::into_inner`. -/
def RwLockM.into_inner {α : Type} (l : RwLockM α) : α := l.value

/-- Bytes of one `Block` (a boxed `[u8; BLOCK_SIZE]`). -/
abbrev BlockM := List Nat

/-- Block-structured model of `Chunk` (`src/chunk.rs` lines 41-45): the
identifier bytes and the lock-wrapped block sequence.  The registry is
irrelevant to construction/deconstruction and omitted here. -/
structure ChunkM where
  id : List Nat
  data : List (RwLockM BlockM)

/-- Model of `Chunk::new_with_blocks(id, blocks)` (lines 73-83): wrap each
given block in a fresh lock, taking the blocks verbatim. -/
def ChunkM.new_with_blocks (id : List Nat) (blocks : List BlockM) : ChunkM :=
  { id := id, data := blocks.map RwLockM.new }

/-- Model of `Chunk::new(id)` (lines 62-70): `BLOCK_PER_CHUNK` zeroed
blocks, each behind a fresh lock. -/
def ChunkM.new (id : List Nat) : ChunkM :=
  { id := id
    data := (List.replicate BLOCK_PER_CHUNK (List.replicate BLOCK_SIZE 0)).map RwLockM.new }

/-- Model of `impl From<Chunk> for Box<[Block; BLOCK_PER_CHUNK]>`
(lines 99-106): unwrap every lock, yielding the owned block sequence. -/
def chunkIntoBlocks (c : ChunkM) : List BlockM :=
  c.data.map RwLockM.into_inner

/-- Guard-suffix invariant of `ChunkWriter` (claim C6): the guard of block
`i` is still held exactly when `i` lies at or beyond the cursor's block. -/
def guardInv (s : CState) : Prop :=
  ∀ i, i < BLOCK_PER_CHUNK → (s.guards i = true ↔ s.ptr / BLOCK_SIZE ≤ i)

instance (s : CState) : Decidable (guardInv s) := by
  unfold guardInv; infer_instance

/-- Overwrite `buf.length` bytes of `d` starting at absolute position `p`. -/
def writeBytes (d : Nat → Nat) (p : Nat) (buf : List Nat) : Nat → Nat :=
  fun i => if p ≤ i ∧ i < p + buf.length then buf.getD (i - p) 0 else d i

theorem writeBytes_append (d : Nat → Nat) (p : Nat) (a b : List Nat) (i : Nat) :
    writeBytes (writeBytes d p a) (p + a.length) b i = writeBytes d p (a ++ b) i := by
  simp only [writeBytes, List.length_append, List.getD_eq_getElem?_getD]
  by_cases h1 : p ≤ i
  · by_cases h2 : i < p + a.length
    · rw [if_neg (by omega : ¬ (p + a.length ≤ i ∧ i < p + a.length + b.length)),
        if_pos (And.intro h1 h2), if_pos (by omega : p ≤ i ∧ i < p + (a.length + b.length)),
        List.getElem?_append, if_pos (by omega : i - p < a.length)]
    · by_cases h3 : i < p + (a.length + b.length)
      · rw [if_pos (by omega : p + a.length ≤ i ∧ i < p + a.length + b.length),
          if_pos (And.intro h1 h3),
          List.getElem?_append, if_neg (by omega : ¬ i - p < a.length)]
        congr 2
        omega
      · rw [if_neg (by omega : ¬ (p + a.length ≤ i ∧ i < p + a.length + b.length)),
          if_neg (by omega : ¬ (p ≤ i ∧ i < p + a.length)),
          if_neg (by omega : ¬ (p ≤ i ∧ i < p + (a.length + b.length)))]
  · rw [if_neg (by omega : ¬ (p + a.length ≤ i ∧ i < p + a.length + b.length)),
      if_neg (by omega : ¬ (p ≤ i ∧ i < p + a.length)),
      if_neg (by omega : ¬ (p ≤ i ∧ i < p + (a.length + b.length)))]

theorem writeBytes_congr (d1 d2 : Nat → Nat) (p : Nat) (b : List Nat)
    (h : ∀ j, d1 j = d2 j) (i : Nat) : writeBytes d1 p b i = writeBytes d2 p b i := by
  simp only [writeBytes]
  rw [h i]

theorem writeBytes_of_take (d : Nat → Nat) (p k : Nat) (buf : List Nat)
    (hk : k ≤ buf.length) (i : Nat) :
    (if p ≤ i ∧ i < p + k then buf.getD (i - p) 0 else d i) =
      writeBytes d p (buf.take k) i := by
  have hlen : (buf.take k).length = k := by
    simp [List.length_take, Nat.min_eq_left hk]
  simp only [writeBytes, hlen, List.getD_eq_getElem?_getD]
  by_cases h : p ≤ i ∧ i < p + k
  · rw [if_pos h, if_pos h, List.getElem?_take]
    rw [if_pos (by omega : i - p < k)]
  · rw [if_neg h, if_neg h]

theorem writeBytes_take_drop (d : Nat → Nat) (p k : Nat) (buf : List Nat)
    (hk : k ≤ buf.length) (i : Nat) :
    writeBytes (writeBytes d p (buf.take k)) (p + k) (buf.drop k) i =
      writeBytes d p buf i := by
  have hlen : (buf.take k).length = k := by
    simp [List.length_take, Nat.min_eq_left hk]
  calc writeBytes (writeBytes d p (buf.take k)) (p + k) (buf.drop k) i
      = writeBytes (writeBytes d p (buf.take k)) (p + (buf.take k).length)
          (buf.drop k) i := by rw [hlen]
    _ = writeBytes d p (buf.take k ++ buf.drop k) i := writeBytes_append ..
    _ = writeBytes d p buf i := by rw [List.take_append_drop]

/-- Behaviour of one `ChunkWriter::write` call whose buffer fits in the
space left before `CHUNK_SIZE`: it consumes the whole buffer, advances the
cursor by its length and overwrites exactly those bytes. -/
theorem writeAux_fits (n : Nat) :
    ∀ (buf : List Nat) (s : CState) (acc : Nat), buf.length = n →
      s.ptr + buf.length ≤ CHUNK_SIZE → (acc = 0 ∨ s.ptr < CHUNK_SIZE) →
      (writeAux s buf acc).1 = acc + buf.length ∧
      (writeAux s buf acc).2.ptr = s.ptr + buf.length ∧
      ∀ i, (writeAux s buf acc).2.data i = writeBytes s.data s.ptr buf i := by
  induction n using Nat.strong_induction_on with
  | _ n ih =>
    intro buf s acc hlen hfit hacc
    rw [writeAux]
    by_cases hp : s.ptr = CHUNK_SIZE
    · have hb0 : buf.length = 0 := by omega
      have ha0 : acc = 0 := by
        rcases hacc with h | h
        · exact h
        · omega
      rw [if_pos hp]
      refine ⟨?_, ?_, fun i => ?_⟩
      · show (0 : Nat) = acc + buf.length
        omega
      · show s.ptr = s.ptr + buf.length
        omega
      · show s.data i = writeBytes s.data s.ptr buf i
        simp only [writeBytes, hb0]
        rw [if_neg (by omega : ¬ (s.ptr ≤ i ∧ i < s.ptr + 0))]
    · rw [if_neg hp]
      have hofs : s.ptr % BLOCK_SIZE < BLOCK_SIZE := Nat.mod_lt _ (by decide)
      dsimp only
      by_cases hfull : buf.length = min (BLOCK_SIZE - s.ptr % BLOCK_SIZE) buf.length
      · rw [if_pos hfull]
        have hmin : min (BLOCK_SIZE - s.ptr % BLOCK_SIZE) buf.length = buf.length := by
          omega
        rw [hmin]
        exact ⟨rfl, rfl, fun i => rfl⟩
      · rw [if_neg hfull]
        set w := min (BLOCK_SIZE - s.ptr % BLOCK_SIZE) buf.length with hw
        have hwle : w ≤ buf.length := by omega
        have hwpos : 1 ≤ w := by omega
        have hdrop : (buf.drop w).length = buf.length - w := by
          simp [List.length_drop]
        have hrec := ih (buf.length - w) (by omega) (buf.drop w)
          { ptr := s.ptr + w,
            data := fun i =>
              if s.ptr ≤ i ∧ i < s.ptr + w then buf.getD (i - s.ptr) 0 else s.data i,
            guards :=
              if (s.ptr + w) / BLOCK_SIZE ≠ s.ptr / BLOCK_SIZE then
                fun i => if i = s.ptr / BLOCK_SIZE then false else s.guards i
              else s.guards,
            subs := s.subs, woken := s.woken }
          (acc + w) hdrop (by dsimp only; omega) (by right; dsimp only; omega)
        refine ⟨?_, ?_, fun i => ?_⟩
        · rw [hrec.1, hdrop]
          omega
        · rw [hrec.2.1]
          dsimp only
          rw [hdrop]
          omega
        · rw [hrec.2.2 i]
          dsimp only
          calc writeBytes
                (fun j => if s.ptr ≤ j ∧ j < s.ptr + w then buf.getD (j - s.ptr) 0
                  else s.data j) (s.ptr + w) (buf.drop w) i
              = writeBytes (writeBytes s.data s.ptr (buf.take w)) (s.ptr + w)
                  (buf.drop w) i :=
                writeBytes_congr _ _ _ _
                  (fun j => writeBytes_of_take s.data s.ptr w buf hwle j) i
            _ = writeBytes s.data s.ptr buf i := writeBytes_take_drop s.data s.ptr w buf hwle i

theorem writeBytes_nil (d : Nat → Nat) (p i : Nat) : writeBytes d p [] i = d i := by
  simp only [writeBytes, List.length_nil]
  rw [if_neg (by omega : ¬ (p ≤ i ∧ i < p + 0))]

theorem map_ext_fun {α β : Type} (l : List α) (f g : α → β) (h : ∀ a, f a = g a) :
    l.map f = l.map g := by
  rw [funext h]

/-- Iterated write calls whose total payload fits in the chunk advance the
cursor by the total length and write the concatenated payload. -/
theorem writeAll_fits (bufs : List (List Nat)) :
    ∀ (s : CState), s.ptr + bufs.flatten.length ≤ CHUNK_SIZE →
      (writeAll s bufs).ptr = s.ptr + bufs.flatten.length ∧
      ∀ i, (writeAll s bufs).data i = writeBytes s.data s.ptr bufs.flatten i := by
  induction bufs with
  | nil =>
    intro s h
    refine ⟨by simp [writeAll], fun i => ?_⟩
    simp only [writeAll, List.flatten_nil, writeBytes_nil]
  | cons b bs ih =>
    intro s h
    have hjoin : (b :: bs).flatten = b ++ bs.flatten := by simp
    have hlenj : (b :: bs).flatten.length = b.length + bs.flatten.length := by
      simp [hjoin]
    have hfit1 : s.ptr + b.length ≤ CHUNK_SIZE := by omega
    have h1 := writeAux_fits b.length b s 0 rfl hfit1 (Or.inl rfl)
    have hcall_ptr : (writeCall s b).ptr = s.ptr + b.length := h1.2.1
    have hcall_data : ∀ i, (writeCall s b).data i = writeBytes s.data s.ptr b i := h1.2.2
    have hrec := ih (writeCall s b) (by rw [hcall_ptr]; omega)
    have hstep : writeAll s (b :: bs) = writeAll (writeCall s b) bs := by
      simp [writeAll]
    rw [hstep]
    refine ⟨by rw [hrec.1, hcall_ptr, hlenj]; omega, fun i => ?_⟩
    rw [hrec.2 i, hjoin]
    calc writeBytes (writeCall s b).data (writeCall s b).ptr bs.flatten i
        = writeBytes (writeBytes s.data s.ptr b) (writeCall s b).ptr bs.flatten i :=
          writeBytes_congr _ _ _ _ hcall_data i
      _ = writeBytes (writeBytes s.data s.ptr b) (s.ptr + b.length) bs.flatten i := by
          rw [hcall_ptr]
      _ = writeBytes s.data s.ptr (b ++ bs.flatten) i := writeBytes_append ..

/-- Reading at the end-of-chunk cursor copies nothing. -/
theorem tryRead_eof (l : Nat → Bool) (data : Nat → Nat) (bufLen : Nat) :
    tryRead l data CHUNK_SIZE bufLen = ([], CHUNK_SIZE) := by
  rw [tryRead]
  simp

/-- When every block has been released, one `try_read` call copies exactly
`min bufLen (CHUNK_SIZE - rp)` bytes of the store, in cursor order. -/
theorem tryRead_free (data : Nat → Nat) (n : Nat) :
    ∀ (rp bufLen : Nat), bufLen = n → rp ≤ CHUNK_SIZE →
      tryRead (fun _ => false) data rp bufLen =
        ((List.range (min bufLen (CHUNK_SIZE - rp))).map (fun k => data (rp + k)),
          rp + min bufLen (CHUNK_SIZE - rp)) := by
  induction n using Nat.strong_induction_on with
  | _ n ih =>
    intro rp bufLen hlen hrp
    rw [tryRead]
    by_cases hp : rp = CHUNK_SIZE
    · rw [if_pos hp]
      subst hp
      simp
    · rw [if_neg hp]
      dsimp only
      rw [if_neg (by simp : ¬ (false = true))]
      have hofs : rp % 4096 < 4096 := Nat.mod_lt _ (by norm_num)
      by_cases hfull : bufLen = min (BLOCK_SIZE - rp % BLOCK_SIZE) bufLen
      · rw [if_pos hfull]
        have hfull4b : bufLen = min (4096 - rp % 4096) bufLen := hfull
        have hrp4 : rp < 4194304 := lt_of_le_of_ne hrp hp
        have hm : min (BLOCK_SIZE - rp % BLOCK_SIZE) bufLen = min bufLen (CHUNK_SIZE - rp) := by
          show min (4096 - rp % 4096) bufLen = min bufLen (4194304 - rp)
          omega
        rw [hm]
      · rw [if_neg hfull]
        set w := min (BLOCK_SIZE - rp % BLOCK_SIZE) bufLen with hw
        have hw4 : w = min (4096 - rp % 4096) bufLen := hw
        have hrp4 : rp < 4194304 := lt_of_le_of_ne hrp hp
        have hfull4b : ¬ bufLen = min (4096 - rp % 4096) bufLen := hfull
        have hwle : w ≤ bufLen := by omega
        have hwpos : 1 ≤ w := by omega
        have hcs : CHUNK_SIZE = 4194304 := rfl
        have hrec := ih (bufLen - w) (by omega) (rp + w) (bufLen - w) rfl
          (by show rp + w ≤ 4194304; omega)
        rw [hrec]
        have hm : min bufLen (CHUNK_SIZE - rp) = w + min (bufLen - w) (CHUNK_SIZE - (rp + w)) := by
          show min bufLen (4194304 - rp) = w + min (bufLen - w) (4194304 - (rp + w))
          omega
        rw [hm]
        refine Prod.ext ?_ (by dsimp only; omega)
        dsimp only
        rw [List.range_add, List.map_append, List.map_map]
        congr 1
        refine map_ext_fun _ _ _ fun k => ?_
        simp only [Function.comp_apply]
        congr 1
        omega

/-- A reader that keeps reading after all blocks are released, with enough
total destination capacity, observes every byte from its cursor to the end
of the chunk. -/
theorem readAll_free (data : Nat → Nat) (sizes : List Nat) :
    ∀ rp, rp ≤ CHUNK_SIZE → CHUNK_SIZE - rp ≤ sizes.sum →
      readAll (fun _ => false) data rp sizes =
        (List.range (CHUNK_SIZE - rp)).map (fun k => data (rp + k)) := by
  induction sizes with
  | nil =>
    intro rp h1 h2
    have h2b : CHUNK_SIZE - rp ≤ 0 := by simpa using h2
    have h0 : CHUNK_SIZE - rp = 0 := by omega
    simp [readAll, h0]
  | cons sz rest ih =>
    intro rp h1 h2
    have hcs : CHUNK_SIZE = 4194304 := rfl
    have h2b : CHUNK_SIZE - rp ≤ sz + rest.sum := by simpa using h2
    simp only [readAll]
    rw [tryRead_free data sz rp sz rfl h1]
    dsimp only
    set m := min sz (CHUNK_SIZE - rp) with hm
    rw [ih (rp + m) (by omega) (by omega)]
    rw [show CHUNK_SIZE - rp = m + (CHUNK_SIZE - (rp + m)) by omega,
      List.range_add, List.map_append, List.map_map]
    congr 1
    refine map_ext_fun _ _ _ fun k => ?_
    simp only [Function.comp_apply]
    congr 1
    omega

/-- Reading within a released prefix never returns zero bytes: `try_read`
at a cursor strictly before `CHUNK_SIZE` whose block is not locked, with a
non-empty destination, copies at least one byte. -/
theorem tryRead_pos (l : Nat → Bool) (data : Nat → Nat) (rp bufLen : Nat)
    (hrp : rp < CHUNK_SIZE) (hl : l (rp / BLOCK_SIZE) = false) (hb : 0 < bufLen) :
    0 < (tryRead l data rp bufLen).1.length := by
  rw [tryRead]
  rw [if_neg (by omega : ¬ rp = CHUNK_SIZE)]
  dsimp only
  rw [hl, if_neg (by simp : ¬ (false = true))]
  have hofs : rp % BLOCK_SIZE < BLOCK_SIZE := Nat.mod_lt _ (by decide)
  by_cases hfull : bufLen = min (BLOCK_SIZE - rp % BLOCK_SIZE) bufLen
  · rw [if_pos hfull]
    simp only [List.length_map, List.length_range]
    omega
  · rw [if_neg hfull]
    simp only [List.length_append, List.length_map, List.length_range]
    omega

/-- One guard-release step of `ChunkWriter::write` keeps the guard array
equal to the suffix `[cursor / BLOCK_SIZE, BLOCK_PER_CHUNK)`. -/
theorem guards_step (g : Nat → Bool) (ptr w : Nat)
    (hw : w ≤ BLOCK_SIZE - ptr % BLOCK_SIZE)
    (hinv : ∀ i, i < BLOCK_PER_CHUNK → (g i = true ↔ ptr / BLOCK_SIZE ≤ i)) :
    ∀ i, i < BLOCK_PER_CHUNK →
      ((if (ptr + w) / BLOCK_SIZE ≠ ptr / BLOCK_SIZE then
          fun j => if j = ptr / BLOCK_SIZE then false else g j
        else g) i = true ↔ (ptr + w) / BLOCK_SIZE ≤ i) := by
  intro i hi
  have hw4 : w ≤ 4096 - ptr % 4096 := hw
  by_cases hcross : (ptr + w) / BLOCK_SIZE ≠ ptr / BLOCK_SIZE
  · rw [if_pos hcross]
    have hcross4 : (ptr + w) / 4096 ≠ ptr / 4096 := hcross
    have hdiv4 : (ptr + w) / 4096 = ptr / 4096 + 1 := by omega
    have hdiv : (ptr + w) / BLOCK_SIZE = ptr / BLOCK_SIZE + 1 := hdiv4
    rw [hdiv]
    by_cases hib : i = ptr / BLOCK_SIZE
    · rw [if_pos hib]
      simp only [Bool.false_eq_true, false_iff]
      omega
    · rw [if_neg hib]
      rw [hinv i hi]
      constructor
      · intro hle
        omega
      · intro hle
        omega
  · rw [if_neg hcross]
    push_neg at hcross
    rw [hinv i hi, hcross]

/-- The guard-suffix invariant is preserved by every `write` call. -/
theorem writeAux_guardInv (n : Nat) :
    ∀ (buf : List Nat) (s : CState) (acc : Nat), buf.length = n → guardInv s →
      guardInv (writeAux s buf acc).2 := by
  induction n using Nat.strong_induction_on with
  | _ n ih =>
    intro buf s acc hlen hinv
    rw [writeAux]
    by_cases hp : s.ptr = CHUNK_SIZE
    · rw [if_pos hp]
      exact hinv
    · rw [if_neg hp]
      set w := min (BLOCK_SIZE - s.ptr % BLOCK_SIZE) buf.length with hw
      have hwr : w ≤ BLOCK_SIZE - s.ptr % BLOCK_SIZE := by
        rw [hw]
        exact min_le_left _ _
      by_cases hfull : buf.length = w
      · rw [if_pos hfull]
        intro i hi
        exact guards_step s.guards s.ptr w hwr hinv i hi
      · rw [if_neg hfull]
        refine ih (buf.length - w) ?_ (buf.drop w) _ (acc + w)
          (by simp [List.length_drop]) ?_
        · have hofs : s.ptr % 4096 < 4096 := Nat.mod_lt _ (by norm_num)
          have hw4 : w = min (4096 - s.ptr % 4096) buf.length := hw
          omega
        · intro i hi
          exact guards_step s.guards s.ptr w hwr hinv i hi

/-- Flattening `writeBytes` over a zeroed store and reading it back over
the full range yields the payload followed by the zero tail. -/
theorem map_range_writeBytes (B : List Nat) (hB : B.length ≤ CHUNK_SIZE) :
    (List.range CHUNK_SIZE).map (fun k => writeBytes (fun _ => 0) 0 B k) =
      B ++ List.replicate (CHUNK_SIZE - B.length) 0 := by
  apply List.ext_getElem
  · simp only [List.length_map, List.length_range, List.length_append,
      List.length_replicate]
    omega
  · intro k h1 h2
    simp only [List.getElem_map, List.getElem_range]
    by_cases hk : k < B.length
    · rw [List.getElem_append_left hk]
      simp only [writeBytes, List.getD_eq_getElem?_getD]
      rw [if_pos (by omega : 0 ≤ k ∧ k < 0 + B.length)]
      simp only [Nat.sub_zero]
      rw [List.getElem?_eq_getElem hk, Option.getD_some]
    · rw [List.getElem_append_right (le_of_not_lt hk)]
      simp only [List.getElem_replicate, writeBytes]
      rw [if_neg (by omega : ¬ (0 ≤ k ∧ k < 0 + B.length))]

theorem wrap64_eq_self (x : Int) (h1 : -2 ^ 63 ≤ x) (h2 : x < 2 ^ 63) :
    wrap64 x = x := by
  unfold wrap64
  have hp63 : (2 : Int) ^ 63 = 9223372036854775808 := by norm_num
  have hp64 : (2 : Int) ^ 64 = 18446744073709551616 := by norm_num
  have hmod : (x + 2 ^ 63) % 2 ^ 64 = x + 2 ^ 63 :=
    Int.emod_eq_of_lt (by omega) (by omega)
  omega

/-- The three `SeekFrom` arms of the source share one tail; this equation
exposes it through `seekTarget`. -/
theorem seekReader_eq (rp : Nat) (pos : SeekFromM) :
    seekReader rp pos =
      (if wrap64 (seekTarget rp pos) < 0 then (none, rp)
       else if CHUNK_SIZE ≤ (wrap64 (seekTarget rp pos)).toNat then
         (some (CHUNK_SIZE - 1), CHUNK_SIZE - 1)
       else (some (wrap64 (seekTarget rp pos)).toNat,
         (wrap64 (seekTarget rp pos)).toNat)) := by
  cases pos <;> rfl

/-- C3: for every sequence of writes producing byte-stream B with
|B| ≤ CHUNK_SIZE on a zeroed chunk, after the writer is shut down, a
reader at cursor 0 that reads to EOF (any schedule of destination sizes
with total capacity covering the chunk) observes exactly B followed by
CHUNK_SIZE - |B| zero bytes. -/
theorem c3_byte_fidelity (bufs : List (List Nat)) (sizes : List Nat)
    (hB : bufs.flatten.length ≤ CHUNK_SIZE)
    (hsz : CHUNK_SIZE ≤ sizes.sum) :
    readAll (pollShutdown (writeAll newZeroedWriter bufs)).guards
        (pollShutdown (writeAll newZeroedWriter bufs)).data 0 sizes =
      bufs.flatten ++ List.replicate (CHUNK_SIZE - bufs.flatten.length) 0 := by
  have hguards : (pollShutdown (writeAll newZeroedWriter bufs)).guards =
      fun _ => false := rfl
  have hdata : ∀ i, (pollShutdown (writeAll newZeroedWriter bufs)).data i =
      writeBytes (fun _ => 0) 0 bufs.flatten i := fun i =>
    (writeAll_fits bufs newZeroedWriter (by simpa [newZeroedWriter] using hB)).2 i
  rw [hguards,
    readAll_free (pollShutdown (writeAll newZeroedWriter bufs)).data sizes 0
      (Nat.zero_le _) (by simpa using hsz),
    Nat.sub_zero,
    map_ext_fun (List.range CHUNK_SIZE) _
      (fun k => writeBytes (fun _ => 0) 0 bufs.flatten k)
      (fun k => by rw [Nat.zero_add]; exact hdata k)]
  exact map_range_writeBytes bufs.flatten hB

/-- Witness for C3 at a concrete write schedule and read schedule. -/
theorem c3_byte_fidelity_witness :
    readAll (pollShutdown (writeAll newZeroedWriter [[1, 2, 3]])).guards
        (pollShutdown (writeAll newZeroedWriter [[1, 2, 3]])).data 0 [CHUNK_SIZE] =
      [[1, 2, 3]].flatten ++
        List.replicate (CHUNK_SIZE - [[1, 2, 3]].flatten.length) 0 :=
  c3_byte_fidelity [[1, 2, 3]] [CHUNK_SIZE]
    (by norm_num [CHUNK_SIZE, BLOCK_SIZE, BLOCK_PER_CHUNK]) (by simp)

/-- C6: the writer's guard array holds a guard at block `i` iff
`i ≥ cursor / BLOCK_SIZE`; construction establishes it with all 1024
guards present at cursor 0, and every `write` call preserves it (releasing
exactly the guards of fully passed blocks). -/
theorem c6_guard_suffix_invariant :
    (newZeroedWriter.ptr = 0 ∧
      ∀ i, i < BLOCK_PER_CHUNK → newZeroedWriter.guards i = true) ∧
    guardInv newZeroedWriter ∧
    ∀ (s : CState) (buf : List Nat), guardInv s → guardInv (writeAux s buf 0).2 :=
  ⟨⟨rfl, fun i hi => by simp [newZeroedWriter, hi]⟩,
    fun i hi => by simp [newZeroedWriter, hi],
    fun s buf hinv => writeAux_guardInv buf.length buf s 0 rfl hinv⟩

/-- Witness for C6: the invariant holds after a concrete write. -/
theorem c6_guard_suffix_invariant_witness :
    guardInv (writeAux newZeroedWriter (List.replicate 3 9) 0).2 :=
  c6_guard_suffix_invariant.2.2 newZeroedWriter (List.replicate 3 9)
    c6_guard_suffix_invariant.2.1

/-- C10: a `write` with an empty buffer at cursor < CHUNK_SIZE returns 0
and leaves the cursor, the guard array and every byte of the store
unchanged. -/
theorem c10_empty_write_frame (s : CState) (h : s.ptr < CHUNK_SIZE) :
    (writeAux s [] 0).1 = 0 ∧
    (writeAux s [] 0).2.ptr = s.ptr ∧
    (writeAux s [] 0).2.guards = s.guards ∧
    ∀ i, (writeAux s [] 0).2.data i = s.data i := by
  rw [writeAux, if_neg (by omega : ¬ s.ptr = CHUNK_SIZE)]
  simp only [List.length_nil, Nat.min_zero, Nat.add_zero, if_pos rfl]
  refine ⟨rfl, rfl, if_neg (by simp), fun i => ?_⟩
  exact if_neg (by omega : ¬ (s.ptr ≤ i ∧ i < s.ptr))

/-- Witness for C10 on the freshly constructed writer. -/
theorem c10_empty_write_frame_witness :
    (writeAux newZeroedWriter [] 0).1 = 0 ∧
    (writeAux newZeroedWriter [] 0).2.ptr = newZeroedWriter.ptr ∧
    (writeAux newZeroedWriter [] 0).2.guards = newZeroedWriter.guards ∧
    ∀ i, (writeAux newZeroedWriter [] 0).2.data i = newZeroedWriter.data i :=
  c10_empty_write_frame newZeroedWriter (by decide)

/-- State of a writer 10 bytes short of the end of the chunk, with the
guard suffix the invariant prescribes there (only block 1023 still held). -/
def nearEndWriter : CState :=
  { ptr := CHUNK_SIZE - 10
    data := fun _ => 0
    guards := fun i => decide (1023 ≤ i)
    subs := []
    woken := [] }

/-- C1 failing input: a 20-byte write at cursor CHUNK_SIZE - 10 consumes
10 bytes (the cursor reaches CHUNK_SIZE and byte CHUNK_SIZE - 1 is
written) yet the call returns 0, because the end-of-chunk early return in
`ChunkWriter::write` yields `Ok(0)` instead of `Ok(acc)`. -/
theorem c1_write_eof_crossing_returns_zero :
    (writeAux nearEndWriter (List.replicate 20 7) 0).1 = 0 ∧
    (writeAux nearEndWriter (List.replicate 20 7) 0).2.ptr = CHUNK_SIZE ∧
    (writeAux nearEndWriter (List.replicate 20 7) 0).2.data (CHUNK_SIZE - 1) = 7 := by
  rw [writeAux]
  norm_num [nearEndWriter, CHUNK_SIZE, BLOCK_SIZE, BLOCK_PER_CHUNK]
  rw [writeAux]
  norm_num [CHUNK_SIZE, BLOCK_SIZE, BLOCK_PER_CHUNK, List.getD_eq_getElem?_getD,
    List.getElem?_replicate]

/-- Chunk state right after the writer of a fresh zeroed chunk shut down:
cursor at CHUNK_SIZE, no guards held, empty registry. -/
def shutdownState : CState := pollShutdown newZeroedWriter

/-- C2 failing input: a cooperative read at cursor CHUNK_SIZE (with a
non-empty destination buffer) registers the waker and returns pending
instead of returning ready with zero bytes, because `poll_read` matches
the end-of-chunk `Ok(0)` of `try_read` into the subscribe-and-pend arm. -/
theorem c2_poll_read_eof_pending :
    (pollRead shutdownState CHUNK_SIZE 10 7).1 = none ∧
    (pollRead shutdownState CHUNK_SIZE 10 7).2.1.subs = [7] := by
  constructor <;>
    simp [pollRead, shutdownState, pollShutdown, newZeroedWriter, tryRead]

/-- C9 failing input: a cooperative reader suspended at cursor 0 (waker 7
in the registry); `poll_shutdown` releases every guard and forces the
cursor to CHUNK_SIZE but never drains the registry or invokes the waker. -/
theorem c9_shutdown_does_not_wake :
    (pollRead newZeroedWriter 0 10 7).1 = none ∧
    (pollShutdown (pollRead newZeroedWriter 0 10 7).2.1).subs = [7] ∧
    (pollShutdown (pollRead newZeroedWriter 0 10 7).2.1).woken = [] ∧
    (pollShutdown (pollRead newZeroedWriter 0 10 7).2.1).ptr = CHUNK_SIZE ∧
    ∀ i, (pollShutdown (pollRead newZeroedWriter 0 10 7).2.1).guards i = false := by
  refine ⟨?_, ?_, ?_, ?_, fun i => rfl⟩ <;>
    simp [pollRead, pollShutdown, newZeroedWriter, tryRead,
      CHUNK_SIZE, BLOCK_SIZE, BLOCK_PER_CHUNK]

/-- C4 (amended): whenever the resolved seek target fits in a signed
64-bit integer, `seek` fails with the cursor unchanged on a negative
target, clamps to CHUNK_SIZE - 1 on a target at or beyond CHUNK_SIZE, and
otherwise sets and returns the target. -/
theorem c4_seek_clamp_amended (rp : Nat) (pos : SeekFromM)
    (h1 : -2 ^ 63 ≤ seekTarget rp pos) (h2 : seekTarget rp pos < 2 ^ 63) :
    seekReader rp pos =
      if seekTarget rp pos < 0 then (none, rp)
      else if (CHUNK_SIZE : Int) ≤ seekTarget rp pos then
        (some (CHUNK_SIZE - 1), CHUNK_SIZE - 1)
      else (some (seekTarget rp pos).toNat, (seekTarget rp pos).toNat) := by
  rw [seekReader_eq rp pos, wrap64_eq_self _ h1 h2]
  by_cases hneg : seekTarget rp pos < 0
  · rw [if_pos hneg, if_pos hneg]
  · rw [if_neg hneg, if_neg hneg]
    refine if_congr ?_ rfl rfl
    rw [Int.le_toNat (by omega)]

/-- Witness for the amended C4 at an in-range position. -/
theorem c4_seek_clamp_amended_witness :
    seekReader 0 (SeekFromM.start 10) = (some 10, 10) := by
  have h := c4_seek_clamp_amended 0 (SeekFromM.start 10)
    (by norm_num [seekTarget]) (by norm_num [seekTarget])
  rw [h]
  norm_num [seekTarget, CHUNK_SIZE, BLOCK_SIZE, BLOCK_PER_CHUNK]
  decide

/-- C4 counterexample: seeking from start to 2^63 ≥ CHUNK_SIZE fails with
invalid-argument (cursor unchanged) instead of clamping to CHUNK_SIZE - 1,
because `offset as i64` wraps to a negative value. -/
theorem c4_seek_start_huge_errors :
    CHUNK_SIZE ≤ 2 ^ 63 ∧
    seekReader 0 (SeekFromM.start (2 ^ 63)) = (none, 0) ∧
    (none, 0) ≠ (some (CHUNK_SIZE - 1), CHUNK_SIZE - 1) := by
  refine ⟨by norm_num [CHUNK_SIZE, BLOCK_SIZE, BLOCK_PER_CHUNK], ?_, by simp⟩
  rw [seekReader_eq]
  have hwrap : wrap64 (seekTarget 0 (SeekFromM.start (2 ^ 63))) = -2 ^ 63 := by
    norm_num [seekTarget, wrap64]
  rw [hwrap, if_pos (by norm_num)]

/-- C5 (amended): when the destination buffer is non-empty, a blocking
read that returns at all returns zero bytes exactly when the cursor is at
end-of-chunk; before end-of-chunk it returns at least one byte. -/
theorem c5_blocking_read_amended (l1 l2 : Nat → Bool) (data : Nat → Nat)
    (rp bufLen : Nat) (res : List Nat × Nat)
    (hbuf : 0 < bufLen) (hrp : rp ≤ CHUNK_SIZE)
    (hres : readBlocking l1 l2 data rp bufLen = some res) :
    (res.1.length = 0 ↔ rp = CHUNK_SIZE) := by
  simp only [readBlocking] at hres
  by_cases hp : rp = CHUNK_SIZE
  · subst hp
    rw [tryRead_eof, if_neg (by simp)] at hres
    cases hres
    simp
  · have hlt : rp < CHUNK_SIZE := lt_of_le_of_ne hrp hp
    constructor
    · intro h0
      exfalso
      by_cases hc : (tryRead l1 data rp bufLen).1.length = 0 ∧ rp ≠ CHUNK_SIZE
      · rw [if_pos hc] at hres
        by_cases hl2 : l2 (rp / BLOCK_SIZE) = true
        · rw [if_pos hl2] at hres
          exact Option.noConfusion hres
        · rw [if_neg hl2] at hres
          have hres2 : res = tryRead l2 data rp bufLen :=
            (Option.some_inj.mp hres).symm
          have hpos := tryRead_pos l2 data rp bufLen hlt
            (Bool.not_eq_true _ ▸ hl2) hbuf
          rw [hres2] at h0
          omega
      · rw [if_neg hc] at hres
        have hres2 : res = tryRead l1 data rp bufLen :=
          (Option.some_inj.mp hres).symm
        rw [hres2] at h0
        exact hc ⟨h0, hp⟩
    · intro h
      exact absurd h hp

/-- Witness for the amended C5: a 5-byte blocking read at cursor 0 of a
fully released chunk. -/
theorem c5_blocking_read_amended_witness :
    (((List.range 5).map fun k => (0 : Nat)), (5 : Nat)).1.length = 0 ↔
      (0 : Nat) = CHUNK_SIZE :=
  c5_blocking_read_amended (fun _ => false) (fun _ => false) (fun _ => 0) 0 5
    ((List.range 5).map fun k => (0 : Nat), 5) (by norm_num)
    (Nat.zero_le _)
    (by
      simp only [readBlocking]
      rw [tryRead_free (fun _ => 0) 5 0 5 rfl (Nat.zero_le _)]
      norm_num [CHUNK_SIZE, BLOCK_SIZE, BLOCK_PER_CHUNK])

/-- C5 counterexample: a blocking read with an empty buffer returns zero
bytes although the cursor 0 is not at end-of-chunk. -/
theorem c5_empty_buffer_zero_before_eof :
    readBlocking (fun _ => false) (fun _ => false) (fun _ => 0) 0 0 =
      some ([], 0) ∧ (0 : Nat) ≠ CHUNK_SIZE := by
  constructor
  · simp only [readBlocking]
    rw [tryRead]
    norm_num [CHUNK_SIZE, BLOCK_SIZE, BLOCK_PER_CHUNK]
  · norm_num [CHUNK_SIZE, BLOCK_SIZE, BLOCK_PER_CHUNK]

/-- C7: the identifier stored by chunk construction is 64 bytes (the
`fs.rs` constant imported by `chunk.rs`), not the 32 bytes the spec
states; `id.rs` defines the 32-byte digest length the spec describes. -/
theorem c7_chunk_id_length_64 (cid : List Nat) (blocks : List BlockM)
    (hid : cid.length = fs.ID_LENGTH) (hb : blocks.length = BLOCK_PER_CHUNK) :
    (ChunkM.new cid).id.length = 64 ∧
    (ChunkM.new_with_blocks cid blocks).id.length = 64 ∧
    (ChunkM.new cid).id.length ≠ 32 ∧
    id.ID_LENGTH = 32 := by
  refine ⟨?_, ?_, ?_, rfl⟩ <;>
    simp [ChunkM.new, ChunkM.new_with_blocks, hid, fs.ID_LENGTH]

/-- Witness for C7 at a concrete 64-byte identifier. -/
theorem c7_chunk_id_length_64_witness :
    (ChunkM.new (List.replicate 64 0)).id.length = 64 ∧
    (ChunkM.new_with_blocks (List.replicate 64 0)
      (List.replicate 1024 [])).id.length = 64 ∧
    (ChunkM.new (List.replicate 64 0)).id.length ≠ 32 ∧
    id.ID_LENGTH = 32 :=
  c7_chunk_id_length_64 (List.replicate 64 0) (List.replicate 1024 [])
    (by rw [List.length_replicate]; rfl) (by rw [List.length_replicate]; rfl)

/-- C8: adopting a 1024-element block sequence and then deconstructing the
chunk returns the same block sequence, byte for byte and in order. -/
theorem c8_block_roundtrip (cid : List Nat) (blocks : List BlockM)
    (hid : cid.length = fs.ID_LENGTH) (hb : blocks.length = BLOCK_PER_CHUNK) :
    chunkIntoBlocks (ChunkM.new_with_blocks cid blocks) = blocks := by
  simp only [chunkIntoBlocks, ChunkM.new_with_blocks, List.map_map]
  have hcomp : RwLockM.into_inner ∘ RwLockM.new = fun b : BlockM => b := rfl
  rw [hcomp]
  exact List.map_id' blocks

/-- Witness for C8 at a concrete identifier and block sequence. -/
theorem c8_block_roundtrip_witness :
    chunkIntoBlocks (ChunkM.new_with_blocks (List.replicate 64 1)
      (List.replicate 1024 (List.replicate 4096 5))) =
      List.replicate 1024 (List.replicate 4096 5) :=
  c8_block_roundtrip (List.replicate 64 1)
    (List.replicate 1024 (List.replicate 4096 5))
    (by rw [List.length_replicate]; rfl) (by rw [List.length_replicate]; rfl)

end EossFuse
